import Mathlib

/-!
Shallow embedding of the OpenMPI_test repository (test1 variant:
MpiProcess.{h,cxx}, MpiCalcPi.{h,cxx}, main.cxx).

MPI collective operations are modelled by oracles recording whether each
call succeeds, and by values the transport delivers (group size, rank, the
reduced sum).  Behaviors and the coordinator return their status code
together with the ordered list of collective calls / lifecycle events they
performed, so that temporal claims (what was invoked, and in which order)
are statable.
-/

/-- `MpiProcess::ErrorCodes` (MpiProcess.h:18-29), as the `int` values the
C++ enum assigns. -/
def ErrNone : Nat := 0

def ErrVersion : Nat := 1

def ErrInit : Nat := 2

def ErrCommSize : Nat := 3

def ErrCommRank : Nat := 4

def ErrReduce : Nat := 5

def ErrFinalize : Nat := 6

def ErrBarrier : Nat := 7

def ErrBcast : Nat := 8

def ErrArgs : Nat := 9

/-- `struct Settings` (MpiCalcPi.cxx:11-13): `totalNumThrows_` is a
`uint64_t` (`MpiCalcPi::Hits`), modelled as a natural number. -/
structure Settings where
  totalNumThrows : Nat
deriving DecidableEq, Repr

/-- The default-constructed `Settings`: `totalNumThrows_{ int(5e6) }`
(MpiCalcPi.cxx:12). -/
def Settings.default : Settings := ⟨5000000⟩

/-- Embeds the `std::stringstream >> totalNumThrows_` extraction
(MpiCalcPi.cxx:157-158) into `uint64_t`: leading spaces are skipped, a
maximal run of decimal digits is read; extraction failure (no digits)
leaves the C++11 value 0, and overflow clamps to the maximal `uint64_t`
value. -/
def parseHits (str : String) : Nat :=
  let ds := (str.toList.dropWhile (fun c => c = ' ')).takeWhile Char.isDigit
  min (ds.foldl (fun acc c => acc * 10 + (c.toNat - 48)) 0) (2 ^ 64 - 1)

/-- `MpiCalcPi::processArgs` (MpiCalcPi.cxx:145-164): scan the argument
list; `-t`/`--throws` consumes the next token as the new total (a missing
next token is `ErrArgs` and stops the scan); every other token is skipped.
Returns the status code and the resulting settings. -/
def processArgs : List String → Settings → Nat × Settings
  | [], s => (ErrNone, s)
  | a :: rest, s =>
    if a = "-t" ∨ a = "--throws" then
      match rest with
      | [] => (ErrArgs, s)
      | v :: rest2 => processArgs rest2 ⟨parseHits v⟩
    else
      processArgs rest s

/-- The manager's local share (MpiCalcPi.cxx:43-44):
`totalNumThrows_ / numTasks() + totalNumThrows_ % (totalNumThrows_ / numTasks())`. -/
def managerShare (total numTasks : Nat) : Nat :=
  total / numTasks + total % (total / numTasks)

/-- A worker's local share (MpiCalcPi.cxx:87): `totalNumThrows_ / numTasks()`. -/
def workerShare (total numTasks : Nat) : Nat :=
  total / numTasks

/-- The sum of all per-process local shares in a group of `numTasks`
processes: one manager plus `numTasks - 1` workers. -/
def totalShares (numTasks total : Nat) : Nat :=
  managerShare total numTasks + (numTasks - 1) * workerShare total numTasks

/-- The manager-share computation of MpiCalcPi.cxx:43-44 with its two C++
divisions made fallible: division or modulo by zero is undefined behavior,
modelled as `none`.  The modulo divisor is `total / numTasks`, so the
second guard trips exactly when that quotient is zero. -/
def managerShareChecked (total numTasks : Nat) : Option Nat :=
  if numTasks = 0 then none
  else if total / numTasks = 0 then none
  else some (total / numTasks + total % (total / numTasks))

/-- The combination rule of MpiCalcPi.cxx:65:
`computedPi = (4.0 * sumHits) / totalNumThrows_`, the `double` arithmetic
embedded as exact rationals. -/
def combine (sum total : ℚ) : ℚ :=
  4 * sum / total

/-- The collective transport calls a behavior can issue. -/
inductive MpiCall
  | bcast
  | barrier
  | reduce
deriving DecidableEq, Repr

/-- Oracle for the collective calls a behavior makes: whether each call
succeeds, and the reduced sum the transport delivers to the manager when
`MPI_Reduce` succeeds.  `throwDarts` is time-seeded (MpiCalcPi.cxx:120);
the group-wide sum of hits is therefore an oracle value, not computed here. -/
structure MpiOracle where
  bcastOk : Bool
  barrierOk : Bool
  reduceOk : Bool
  sumHits : Nat
deriving DecidableEq, Repr

/-- What a behavior run produced: its status code, the collective calls it
issued in order, the local work share it computed (when it got that far),
and the final value the manager derived (when it got that far). -/
structure BehaviorResult where
  ret : Nat
  calls : List MpiCall
  share : Option Nat
  finalValue : Option ℚ
deriving DecidableEq, Repr

/-- `MpiCalcPi::runAsManagerImpl` (MpiCalcPi.cxx:28-74): parse arguments
(failure returns immediately, before any collective call), broadcast the
settings, compute the manager share, throw darts, barrier, reduce, and on
full success derive the final value from the reduced sum. -/
def runAsManagerImpl (ora : MpiOracle) (numTasks : Nat) (args : List String) :
    BehaviorResult :=
  let pr := processArgs args Settings.default
  if pr.1 ≠ ErrNone then
    ⟨pr.1, [], none, none⟩
  else if ora.bcastOk = false then
    ⟨ErrBcast, [.bcast], none, none⟩
  else
    let numThrows := managerShare pr.2.totalNumThrows numTasks
    if ora.barrierOk = false then
      ⟨ErrBarrier, [.bcast, .barrier], some numThrows, none⟩
    else if ora.reduceOk = false then
      ⟨ErrReduce, [.bcast, .barrier, .reduce], some numThrows, none⟩
    else
      ⟨ErrNone, [.bcast, .barrier, .reduce], some numThrows,
        some (combine ora.sumHits pr.2.totalNumThrows)⟩

/-- `MpiCalcPi::runAsWorkerImpl` (MpiCalcPi.cxx:77-104): receive the
settings by broadcast (`bcastTotal` is the total the manager broadcast),
compute the worker share, throw darts, barrier, reduce.  The worker never
reads the reduced sum. -/
def runAsWorkerImpl (ora : MpiOracle) (numTasks : Nat) (bcastTotal : Nat) :
    BehaviorResult :=
  if ora.bcastOk = false then
    ⟨ErrBcast, [.bcast], none, none⟩
  else
    let numThrows := workerShare bcastTotal numTasks
    if ora.barrierOk = false then
      ⟨ErrBarrier, [.bcast, .barrier], some numThrows, none⟩
    else if ora.reduceOk = false then
      ⟨ErrReduce, [.bcast, .barrier, .reduce], some numThrows, none⟩
    else
      ⟨ErrNone, [.bcast, .barrier, .reduce], some numThrows, none⟩

/-- The `MpiProcess` configuration fields `run` reads (MpiProcess.h:86-93),
with the source's member defaults. -/
structure RunCfg where
  syncStarts : Bool := true
  syncEnds : Bool := false
  managerTaskId : Int := 0
deriving DecidableEq, Repr

/-- Oracle for the transport calls `MpiProcess::run` makes itself: whether
each succeeds, and the size/rank `MPI_Comm_size`/`MPI_Comm_rank` deliver. -/
structure RunOracle where
  initOk : Bool
  commSizeOk : Bool
  commRankOk : Bool
  numTasks : Nat
  taskId : Int
  startBarrierOk : Bool
  endBarrierOk : Bool
  finalizeOk : Bool
deriving DecidableEq, Repr

/-- Lifecycle events of one `MpiProcess::run`, in the order performed.  The
behavior event records which role was dispatched and the argument list it
received. -/
inductive RunEvent
  | init
  | commSize
  | commRank
  | startBarrier
  | behavior (isManager : Bool) (args : List String)
  | endBarrier
  | finalize
deriving DecidableEq, Repr

/-- The body of `MpiProcess::run` before the unconditional
`MPI_Finalize` (MpiProcess.cxx:23-60): init, size, rank, optional start
barrier, role dispatch on `managerTaskId_ == taskId_` over the argument
list with the program name stripped (`argv + 1`), optional end barrier only
when the behavior succeeded.  `behave` is the virtual dispatch target:
given the role and the stripped arguments it returns the behavior's status
code. -/
def runBody (cfg : RunCfg) (ora : RunOracle)
    (behave : Bool → List String → Nat) (argv : List String) :
    Nat × List RunEvent :=
  if ora.initOk = false then
    (ErrInit, [.init])
  else if ora.commSizeOk = false then
    (ErrCommSize, [.init, .commSize])
  else if ora.commRankOk = false then
    (ErrCommRank, [.init, .commSize, .commRank])
  else if cfg.syncStarts = true ∧ ora.startBarrierOk = false then
    (ErrBarrier, [.init, .commSize, .commRank, .startBarrier])
  else
    let pre := [RunEvent.init, .commSize, .commRank] ++
      (if cfg.syncStarts = true then [.startBarrier] else [])
    let isMgr : Bool := cfg.managerTaskId == ora.taskId
    let args := argv.tail
    let ret := behave isMgr args
    let evs := pre ++ [RunEvent.behavior isMgr args]
    if ret ≠ ErrNone then
      (ret, evs)
    else if cfg.syncEnds = true ∧ ora.endBarrierOk = false then
      (ErrBarrier, evs ++ [.endBarrier])
    else
      (ret, evs ++ (if cfg.syncEnds = true then [.endBarrier] else []))

/-- `MpiProcess::run` (MpiProcess.cxx:20-70): the body, then the
unconditional `MPI_Finalize` (MpiProcess.cxx:62-66), whose failure is
recorded as `ErrFinalize` only when no earlier error was. -/
def MpiProcessRun (cfg : RunCfg) (ora : RunOracle)
    (behave : Bool → List String → Nat) (argv : List String) :
    Nat × List RunEvent :=
  let b := runBody cfg ora behave argv
  (if ora.finalizeOk = false ∧ b.1 = ErrNone then ErrFinalize else b.1,
    b.2 ++ [.finalize])

/-- Recognizes the role-dispatch event among the run's lifecycle events. -/
def isBehaviorEvent : RunEvent → Bool
  | .behavior _ _ => true
  | _ => false

/-- An unrecognized token is skipped by the argument scan. -/
theorem processArgs_skip (a : String) (rest : List String) (s : Settings)
    (ha : ¬(a = "-t" ∨ a = "--throws")) :
    processArgs (a :: rest) s = processArgs rest s := by
  cases rest with
  | nil => rw [processArgs.eq_2, if_neg ha]
  | cons v rest2 => rw [processArgs.eq_3, if_neg ha]

/-- A cleanly parsed prefix composes: scanning `pre ++ rest` applies the
scan of `pre` and then continues with `rest` from the settings `pre`
produced.  The hypothesis rules out a trailing flag inside `pre`, which
would consume the first token of `rest` as its value. -/
theorem processArgs_append : ∀ (pre rest : List String) (s : Settings),
    (processArgs pre s).1 = ErrNone →
    processArgs (pre ++ rest) s = processArgs rest (processArgs pre s).2
  | [], _, _, _ => rfl
  | [a], rest, s, h => by
    by_cases ha : a = "-t" ∨ a = "--throws"
    · rw [processArgs.eq_2, if_pos ha] at h
      exact absurd h (by simp [ErrArgs, ErrNone])
    · rw [List.cons_append, List.nil_append,
        processArgs_skip a rest s ha, processArgs_skip a [] s ha,
        processArgs.eq_1]
  | a :: v :: pre2, rest, s, h => by
    by_cases ha : a = "-t" ∨ a = "--throws"
    · rw [processArgs.eq_3, if_pos ha] at h
      rw [List.cons_append, List.cons_append, processArgs.eq_3, if_pos ha,
        processArgs.eq_3, if_pos ha]
      exact processArgs_append pre2 rest _ h
    · rw [processArgs_skip a (v :: pre2) s ha] at h
      rw [List.cons_append, processArgs_skip a ((v :: pre2) ++ rest) s ha,
        processArgs_skip a (v :: pre2) s ha]
      exact processArgs_append (v :: pre2) rest s h

/-- C1: the claim asserts that the shares sum to exactly the total for every
group size `S ≥ 1` and total `T ≥ S`.  At `S = 4`, `T = 10` the code's
shares are `2 + 2 + 2 + 2 = 8 ≠ 10`: the modulo divisor `T / S` (instead of
`S`) drops the remainder the comment at MpiCalcPi.cxx:42 says the manager
absorbs. -/
theorem shares_sum_bug : totalShares 4 10 = 8 ∧ totalShares 4 10 ≠ 10 := by
  decide

/-- C5: under a successful parse and broadcast, the manager's computed local
share is exactly `total / groupSize + total % (total / groupSize)`. -/
theorem manager_share_formula (ora : MpiOracle) (numTasks : Nat)
    (args : List String) (hb : ora.bcastOk = true)
    (hp : (processArgs args Settings.default).1 = ErrNone) :
    (runAsManagerImpl ora numTasks args).share =
      some ((processArgs args Settings.default).2.totalNumThrows / numTasks +
        (processArgs args Settings.default).2.totalNumThrows %
          ((processArgs args Settings.default).2.totalNumThrows / numTasks)) := by
  cases hbar : ora.barrierOk <;> cases hred : ora.reduceOk <;>
    simp [runAsManagerImpl, hp, hb, hbar, hred, managerShare]

/-- Witness for C5 at `total = 12`, `groupSize = 3`. -/
theorem manager_share_formula_witness :
    (runAsManagerImpl ⟨true, true, true, 0⟩ 3 ["-t", "12"]).share =
      some (12 / 3 + 12 % (12 / 3)) := by
  have h := manager_share_formula ⟨true, true, true, 0⟩ 3 ["-t", "12"] rfl
    (by decide)
  rw [h]
  decide

/-- C10: the modulo divisor in the manager's share is `total / numTasks`;
for `total ≥ numTasks ≥ 1` it is non-zero and the computation is
division-by-zero free, while for `total < numTasks` the divisor is zero and
the unguarded computation hits undefined behavior. -/
theorem manager_share_divisor :
    (∀ total numTasks, 1 ≤ numTasks → numTasks ≤ total →
      managerShareChecked total numTasks = some (managerShare total numTasks)) ∧
    (∀ total numTasks, 1 ≤ numTasks → total < numTasks →
      managerShareChecked total numTasks = none) := by
  constructor
  · intro t s h1 h2
    have hs : ¬s = 0 := by omega
    have hq : ¬t / s = 0 := by
      have h3 := (Nat.one_le_div_iff (by omega : 0 < s)).mpr h2
      omega
    simp [managerShareChecked, hs, hq, managerShare]
  · intro t s h1 h2
    have hs : ¬s = 0 := by omega
    have hq : t / s = 0 := Nat.div_eq_of_lt h2
    simp [managerShareChecked, hs, hq]

/-- Witness for C10 at `(total, numTasks) = (10, 4)` and `(2, 4)`. -/
theorem manager_share_divisor_witness :
    managerShareChecked 10 4 = some (managerShare 10 4) ∧
      managerShareChecked 2 4 = none :=
  ⟨manager_share_divisor.1 10 4 (by decide) (by decide),
   manager_share_divisor.2 2 4 (by decide) (by decide)⟩

/-- C6: the combination rule is the pure function `4 * sum / total`; it
sends `sum = 0` to `0` and `sum = total / 4` to `1` for positive totals
(the `double` arithmetic of MpiCalcPi.cxx:65 embedded as exact rationals). -/
theorem combine_pure :
    (∀ sum total : ℚ, combine sum total = 4 * sum / total) ∧
    (∀ total : ℚ, combine 0 total = 0) ∧
    (∀ total : ℚ, 0 < total → combine (total / 4) total = 1) := by
  refine ⟨fun s t => rfl, fun t => by simp [combine], fun t ht => ?_⟩
  have h : t ≠ 0 := ne_of_gt ht
  rw [combine]
  field_simp

/-- Witness for C6 at `total = 4`. -/
theorem combine_pure_witness : (0 : ℚ) < 4 ∧ combine ((4 : ℚ) / 4) 4 = 1 :=
  ⟨by norm_num, combine_pure.2.2 4 (by norm_num)⟩

/-- C7: each occurrence of `-t`/`--throws` followed by a value sets the
total to the parsed value and the scan continues after it; `-t 1000` yields
total `1000`; unrecognized tokens leave the settings unchanged; with no
recognized flag the default total `5000000` stands. -/
theorem processArgs_spec :
    (∀ rest s v f, (f = "-t" ∨ f = "--throws") →
      processArgs (f :: v :: rest) s = processArgs rest ⟨parseHits v⟩) ∧
    processArgs ["-t", "1000"] Settings.default = (ErrNone, ⟨1000⟩) ∧
    (∀ args s, (∀ a ∈ args, ¬(a = "-t" ∨ a = "--throws")) →
      processArgs args s = (ErrNone, s)) ∧
    Settings.default.totalNumThrows = 5000000 := by
  refine ⟨?_, by decide, ?_, rfl⟩
  · intro rest s v f hf
    rw [processArgs.eq_3, if_pos hf]
  · intro args
    induction args with
    | nil => intro s h; rfl
    | cons a rest ih =>
      intro s h
      have ha := h a (List.mem_cons_self a rest)
      rw [processArgs_skip a rest s ha]
      exact ih s (fun b hb => h b (List.mem_cons_of_mem a hb))

/-- Witness for C7: a recognized flag sets the total, a later unrecognized
token is ignored. -/
theorem processArgs_spec_witness :
    processArgs ["--throws", "42", "junk"] Settings.default =
      (ErrNone, ⟨42⟩) := by
  have h1 := processArgs_spec.1 ["junk"] Settings.default "42" "--throws"
    (Or.inr rfl)
  have h2 := processArgs_spec.2.2.1 ["junk"] (⟨parseHits "42"⟩ : Settings)
    (by intro a ha; simp only [List.mem_singleton] at ha; subst ha; decide)
  rw [h1, h2]
  decide

/-- C4: a recognized flag in last position makes the parse fail with
`ErrArgs` whenever the scan reaches it as a flag (that is, the arguments
before it parse cleanly, so the trailing flag is not itself consumed as the
value of an immediately preceding flag); and on any `ErrArgs` parse the
manager behavior returns `ErrArgs` having issued no collective call at all
— in particular no broadcast. -/
theorem manager_trailing_flag_no_bcast :
    (∀ s pre f, (f = "-t" ∨ f = "--throws") →
      (processArgs pre s).1 = ErrNone →
      (processArgs (pre ++ [f]) s).1 = ErrArgs) ∧
    (∀ ora numTasks args,
      (processArgs args Settings.default).1 = ErrArgs →
      (runAsManagerImpl ora numTasks args).ret = ErrArgs ∧
      (runAsManagerImpl ora numTasks args).calls = []) := by
  constructor
  · intro s pre f hf hp
    rw [processArgs_append pre [f] s hp, processArgs.eq_2, if_pos hf]
  · intro ora numTasks args hp
    constructor <;> simp [runAsManagerImpl, hp, ErrArgs, ErrNone]

/-- Witness for C4: `--throws` trailing after a properly paired earlier
flag, and as the sole argument of the manager behavior. -/
theorem manager_trailing_flag_no_bcast_witness :
    (processArgs (["-t", "100"] ++ ["--throws"]) Settings.default).1 =
      ErrArgs ∧
    (runAsManagerImpl ⟨true, true, true, 0⟩ 4 ["--throws"]).ret = ErrArgs ∧
    (runAsManagerImpl ⟨true, true, true, 0⟩ 4 ["--throws"]).calls = [] := by
  have h1 := manager_trailing_flag_no_bcast.1 Settings.default ["-t", "100"]
    "--throws" (Or.inr rfl) (by decide)
  have h2 := manager_trailing_flag_no_bcast.2 ⟨true, true, true, 0⟩ 4
    ["--throws"] (by decide)
  exact ⟨h1, h2.1, h2.2⟩

/-- C9: a behavior that fails before the barrier never calls barrier or
reduce: a worker whose broadcast fails returns `ErrBcast` with neither
call; a manager whose parse fails returns the parse error with no calls;
a manager whose broadcast fails returns `ErrBcast` with neither call. -/
theorem fail_before_barrier :
    (∀ ora numTasks bcastTotal, ora.bcastOk = false →
      (runAsWorkerImpl ora numTasks bcastTotal).ret = ErrBcast ∧
      MpiCall.barrier ∉ (runAsWorkerImpl ora numTasks bcastTotal).calls ∧
      MpiCall.reduce ∉ (runAsWorkerImpl ora numTasks bcastTotal).calls) ∧
    (∀ ora numTasks args,
      (processArgs args Settings.default).1 ≠ ErrNone →
      (runAsManagerImpl ora numTasks args).ret =
        (processArgs args Settings.default).1 ∧
      MpiCall.barrier ∉ (runAsManagerImpl ora numTasks args).calls ∧
      MpiCall.reduce ∉ (runAsManagerImpl ora numTasks args).calls) ∧
    (∀ ora numTasks args,
      (processArgs args Settings.default).1 = ErrNone →
      ora.bcastOk = false →
      (runAsManagerImpl ora numTasks args).ret = ErrBcast ∧
      MpiCall.barrier ∉ (runAsManagerImpl ora numTasks args).calls ∧
      MpiCall.reduce ∉ (runAsManagerImpl ora numTasks args).calls) := by
  refine ⟨?_, ?_, ?_⟩
  · intro ora numTasks bcastTotal hb
    simp [runAsWorkerImpl, hb]
  · intro ora numTasks args hp
    simp [runAsManagerImpl, hp]
  · intro ora numTasks args hp hb
    simp [runAsManagerImpl, hp, hb]

/-- Witness for C9: broadcast failure on a worker, parse failure on a
manager, broadcast failure on a manager. -/
theorem fail_before_barrier_witness :
    MpiCall.barrier ∉ (runAsWorkerImpl ⟨false, true, true, 0⟩ 4 100).calls ∧
    MpiCall.barrier ∉
      (runAsManagerImpl ⟨false, true, true, 0⟩ 4 ["-t"]).calls ∧
    MpiCall.barrier ∉ (runAsManagerImpl ⟨false, true, true, 0⟩ 4 []).calls :=
  ⟨(fail_before_barrier.1 ⟨false, true, true, 0⟩ 4 100 rfl).2.1,
   (fail_before_barrier.2.1 ⟨false, true, true, 0⟩ 4 ["-t"] (by decide)).2.1,
   (fail_before_barrier.2.2 ⟨false, true, true, 0⟩ 4 [] (by decide) rfl).2.1⟩

/-- C2: finalize is attempted on every path of `run`; when finalize fails
with no earlier error the result becomes `ErrFinalize`, and any earlier
error is returned unchanged whether finalize succeeds or fails. -/
theorem run_finalize_precedence (cfg : RunCfg) (ora : RunOracle)
    (behave : Bool → List String → Nat) (argv : List String) :
    RunEvent.finalize ∈ (MpiProcessRun cfg ora behave argv).2 ∧
    (ora.finalizeOk = false → (runBody cfg ora behave argv).1 = ErrNone →
      (MpiProcessRun cfg ora behave argv).1 = ErrFinalize) ∧
    (ora.finalizeOk = false → (runBody cfg ora behave argv).1 ≠ ErrNone →
      (MpiProcessRun cfg ora behave argv).1 =
        (runBody cfg ora behave argv).1) ∧
    (ora.finalizeOk = true →
      (MpiProcessRun cfg ora behave argv).1 =
        (runBody cfg ora behave argv).1) := by
  refine ⟨by simp [MpiProcessRun], ?_, ?_, ?_⟩
  · intro hf hr
    simp [MpiProcessRun, hf, hr]
  · intro hf hr
    simp [MpiProcessRun, hf, hr]
  · intro hf
    simp [MpiProcessRun, hf]

/-- Witness for C2: init failure followed by finalize failure still exits
with the init error. -/
theorem run_finalize_precedence_witness :
    (MpiProcessRun {} ⟨false, true, true, 4, 0, true, true, false⟩
      (fun _ _ => ErrNone) ["prog"]).1 = ErrInit := by
  have h := (run_finalize_precedence {}
    ⟨false, true, true, 4, 0, true, true, false⟩
    (fun _ _ => ErrNone) ["prog"]).2.2.1 rfl (by decide)
  rw [h]
  decide

/-- C3: finalize runs on every path; after a failure of init, the size
query, the rank query, or the start barrier, the trace is pinned down
exactly — no later barrier and no behavior occurs, only finalize; and the
end barrier occurs only when end-synchronization is enabled, the behavior
was actually dispatched, and it returned success. -/
theorem run_skip_sync_finalize (cfg : RunCfg) (ora : RunOracle)
    (behave : Bool → List String → Nat) (argv : List String) :
    RunEvent.finalize ∈ (MpiProcessRun cfg ora behave argv).2 ∧
    (ora.initOk = false →
      (MpiProcessRun cfg ora behave argv).2 = [.init, .finalize]) ∧
    (ora.initOk = true → ora.commSizeOk = false →
      (MpiProcessRun cfg ora behave argv).2 =
        [.init, .commSize, .finalize]) ∧
    (ora.initOk = true → ora.commSizeOk = true → ora.commRankOk = false →
      (MpiProcessRun cfg ora behave argv).2 =
        [.init, .commSize, .commRank, .finalize]) ∧
    (ora.initOk = true → ora.commSizeOk = true → ora.commRankOk = true →
      cfg.syncStarts = true → ora.startBarrierOk = false →
      (MpiProcessRun cfg ora behave argv).2 =
        [.init, .commSize, .commRank, .startBarrier, .finalize]) ∧
    (RunEvent.endBarrier ∈ (MpiProcessRun cfg ora behave argv).2 →
      cfg.syncEnds = true ∧
      RunEvent.behavior (cfg.managerTaskId == ora.taskId) argv.tail ∈
        (MpiProcessRun cfg ora behave argv).2 ∧
      behave (cfg.managerTaskId == ora.taskId) argv.tail = ErrNone) := by
  refine ⟨by simp [MpiProcessRun], ?_, ?_, ?_, ?_, ?_⟩
  · intro h1
    simp [MpiProcessRun, runBody, h1]
  · intro h1 h2
    simp [MpiProcessRun, runBody, h1, h2]
  · intro h1 h2 h3
    simp [MpiProcessRun, runBody, h1, h2, h3]
  · intro h1 h2 h3 h4 h5
    simp [MpiProcessRun, runBody, h1, h2, h3, h4, h5]
  · intro hmem
    cases hI : ora.initOk <;> cases hS : ora.commSizeOk <;>
      cases hR : ora.commRankOk <;> cases hss : cfg.syncStarts <;>
      cases hsb : ora.startBarrierOk <;> cases hse : cfg.syncEnds <;>
      cases heb : ora.endBarrierOk <;>
      by_cases hret :
        behave (cfg.managerTaskId == ora.taskId) argv.tail = ErrNone <;>
      simp_all [MpiProcessRun, runBody]

/-- Witness for C3: the exact traces after an init failure, a size-query
failure, and a start-barrier failure. -/
theorem run_skip_sync_finalize_witness :
    (MpiProcessRun {} ⟨false, true, true, 4, 0, true, true, true⟩
      (fun _ _ => ErrNone) ["prog"]).2 = [RunEvent.init, RunEvent.finalize] ∧
    (MpiProcessRun {} ⟨true, false, true, 4, 0, true, true, true⟩
      (fun _ _ => ErrNone) ["prog"]).2 =
      [RunEvent.init, RunEvent.commSize, RunEvent.finalize] ∧
    (MpiProcessRun {} ⟨true, true, true, 4, 0, false, true, true⟩
      (fun _ _ => ErrNone) ["prog"]).2 =
      [RunEvent.init, RunEvent.commSize, RunEvent.commRank,
        RunEvent.startBarrier, RunEvent.finalize] :=
  ⟨(run_skip_sync_finalize {} ⟨false, true, true, 4, 0, true, true, true⟩
      (fun _ _ => ErrNone) ["prog"]).2.1 rfl,
   (run_skip_sync_finalize {} ⟨true, false, true, 4, 0, true, true, true⟩
      (fun _ _ => ErrNone) ["prog"]).2.2.1 rfl rfl,
   (run_skip_sync_finalize {} ⟨true, true, true, 4, 0, false, true, true⟩
      (fun _ _ => ErrNone) ["prog"]).2.2.2.2.1 rfl rfl rfl rfl rfl⟩

/-- C8: when init, size query, rank query, and (if enabled) the start
barrier all succeed, `run` dispatches exactly one behavior, handing it the
argument list with the program name stripped; the role is manager exactly
when the rank equals the configured manager rank. -/
theorem run_dispatch (cfg : RunCfg) (ora : RunOracle)
    (behave : Bool → List String → Nat) (argv : List String)
    (hI : ora.initOk = true) (hS : ora.commSizeOk = true)
    (hR : ora.commRankOk = true)
    (hB : cfg.syncStarts = true → ora.startBarrierOk = true) :
    (MpiProcessRun cfg ora behave argv).2.filter isBehaviorEvent =
      [RunEvent.behavior (cfg.managerTaskId == ora.taskId) argv.tail] := by
  cases hss : cfg.syncStarts <;> cases hse : cfg.syncEnds <;>
    cases heb : ora.endBarrierOk <;>
    by_cases hret :
      behave (cfg.managerTaskId == ora.taskId) argv.tail = ErrNone <;>
    simp_all [MpiProcessRun, runBody, isBehaviorEvent]

/-- Witness for C8: rank 2 with manager rank 0 dispatches exactly the
worker behavior on the stripped argument list. -/
theorem run_dispatch_witness :
    (MpiProcessRun {} ⟨true, true, true, 4, 2, true, true, true⟩
      (fun _ _ => ErrNone) ["prog", "x"]).2.filter isBehaviorEvent =
      [RunEvent.behavior false ["x"]] := by
  have h := run_dispatch {} ⟨true, true, true, 4, 2, true, true, true⟩
    (fun _ _ => ErrNone) ["prog", "x"] rfl rfl rfl (fun _ => rfl)
  rw [h]
  decide
